import Mathlib

/-!
Verification development for the ToolHub password-vault subsystem.

The development shallowly embeds the vault cryptography engine
(`CryptoManager`, src/unnamed/part_003) and the vault session manager
(`VaultManager`, src/pass-manager/vault.js).

Modelling conventions, stated once here:

* JavaScript objects are association lists from string keys to `JVal`
  values; a spread/object-literal write updates the first occurrence of a
  key in place or appends a fresh key, exactly as JS property assignment
  orders keys.
* Byte strings (salts, IVs, ciphertexts) are `List Nat`; the base64
  transport encoding (`bufferToBase64`/`base64ToBuffer`) is a bijection on
  byte strings and is elided.
* The Web Crypto AEAD primitive is modelled as an ideal authenticated
  cipher: a ciphertext produced under a derived key and IV decrypts to its
  plaintext exactly when the same key and IV are supplied, and fails
  otherwise.  PBKDF2 key derivation is modelled as the injective pairing of
  password, salt and the engine's current iteration count, which is what
  `CryptoManager.deriveKey` feeds into the primitive.
* `JSON.stringify` is modelled as the injective constructor
  `Plain.ofJson`; `JSON.parse` is its partial inverse `jsonParse`, and
  `Plain.raw` covers decrypted strings that are not a serialization of the
  payload type (a parse attempt on them raises a parse error, as
  `JSON.parse` raises `SyntaxError`).
* `Date.now` / `toISOString` timestamps are naturals (the ISO encoding is
  strictly monotone); adjacent `new Date()` calls inside one method body
  are the same instant.  Random inputs (salts, IVs, UUIDs, random byte
  streams) and the success of a `localStorage` write are explicit
  parameters, since they come from the environment.
* JS exceptions become `Except Err`; each `Err` constructor corresponds to
  a distinct thrown message, recorded next to the constructor.
-/

namespace ToolHub

/-- JavaScript primitive values appearing in vault entries. -/
inductive JVal where
  | str (s : String)
  | bool (b : Bool)
  | num (n : Nat)
  | null
deriving DecidableEq

/-- A JavaScript object: ordered association list of fields. -/
abbrev Obj := List (String × JVal)

/-- Byte strings (the base64 layer is elided as a bijection). -/
abbrev Bytes := List Nat

/-- Property read `o[k]`: first occurrence of key `k`. -/
def getField (o : Obj) (k : String) : Option JVal :=
  match o with
  | [] => none
  | (k', v) :: rest => if k' = k then some v else getField rest k

/-- Property write `o[k] = v`: update the first occurrence in place, or
append a fresh key, matching JS property-order semantics. -/
def putField (o : Obj) (k : String) (v : JVal) : Obj :=
  match o with
  | [] => [(k, v)]
  | (k', v') :: rest => if k' = k then (k', v) :: rest else (k', v') :: putField rest k v

/-- Object spread `{...a, ...b}`: write every field of `b` over `a`. -/
def spread (a b : Obj) : Obj := b.foldl (fun acc kv => putField acc kv.1 kv.2) a

/-- JS truthiness of a property read (absent/`undefined` is falsy). -/
def truthy : Option JVal → Bool
  | none => false
  | some (.str s) => decide (s ≠ "")
  | some (.bool b) => b
  | some (.num n) => decide (n ≠ 0)
  | some .null => false

/-- Distinct error messages thrown by the vault subsystem. -/
inductive Err where
  /-- `'Invalid vault format'` (decryptVault structural guard). -/
  | invalidVaultFormat
  /-- `'Decryption failed: Invalid password or corrupted data'` — the single
  merged wrong-password / tampered-data error (`InvalidCredentialsOrCorrupt`). -/
  | decryptionFailed
  /-- `SyntaxError` raised by `JSON.parse` on non-JSON plaintext. -/
  | parseError
  /-- `'Vault is locked'`. -/
  | vaultLocked
  /-- `'Entry not found'`. -/
  | entryNotFound
  /-- `'No vault found'`. -/
  | noVaultFound
  /-- `'Invalid master password'` (unlock wraps decryption failures). -/
  | invalidMasterPassword
  /-- `'Failed to save vault to storage'`. -/
  | saveFailed
  /-- `TypeError` from dereferencing a null `this.vault` (never reached on
  the paths the claims are about). -/
  | jsTypeError
deriving DecidableEq

instance {ε α : Type} [DecidableEq ε] [DecidableEq α] : DecidableEq (Except ε α) := fun a b =>
  match a, b with
  | .ok x, .ok y => decidable_of_iff (x = y) (by simp)
  | .error x, .error y => decidable_of_iff (x = y) (by simp)
  | .ok _, .error _ => isFalse (fun h => Except.noConfusion h)
  | .error _, .ok _ => isFalse (fun h => Except.noConfusion h)

/-! ## Cryptography engine (`CryptoManager`, src/unnamed/part_003) -/

/-- The engine's mutable configuration: `this.ITERATIONS` is the only field
the source ever reassigns (temporarily, inside `decryptVault`). -/
structure CryptoState where
  ITERATIONS : Nat
deriving DecidableEq

/-- The engine's initial configuration (`ITERATIONS = 600000`). -/
def defaultCryptoState : CryptoState := ⟨600000⟩

/-- A PBKDF2-derived AES key, modelled as the injective pairing of the
inputs `CryptoManager.deriveKey` feeds into the KDF. -/
structure DerivedKey where
  password : String
  salt : Bytes
  iterations : Nat
deriving DecidableEq

/-- `CryptoManager.deriveKey(password, salt)`: uses `this.ITERATIONS`
(the engine's current iteration count). -/
def deriveKey (st : CryptoState) (password : String) (salt : Bytes) : DerivedKey :=
  ⟨password, salt, st.ITERATIONS⟩

/-- A decrypted plaintext string: either the `JSON.stringify` image of a
payload, or a raw string that is not a payload serialization. -/
inductive Plain (α : Type) where
  | ofJson (a : α)
  | raw (s : String)
deriving DecidableEq

/-- `JSON.stringify` (injective canonical encoding). -/
def jsonStringify {α : Type} (a : α) : Plain α := .ofJson a

/-- `JSON.parse`, partial inverse of `jsonStringify`. -/
def jsonParse {α : Type} : Plain α → Except Err α
  | .ofJson a => .ok a
  | .raw _ => .error .parseError

/-- An AES-GCM ciphertext under the ideal-cipher model: it remembers the
key and IV it was produced with and the plaintext it authenticates. -/
structure CtBlob (α : Type) where
  key : DerivedKey
  iv : Bytes
  plain : Plain α
deriving DecidableEq

/-- Result of `CryptoManager.encrypt`: `{iv, ciphertext}`. -/
structure EncResult (α : Type) where
  iv : Bytes
  ciphertext : CtBlob α
deriving DecidableEq

/-- `CryptoManager.encrypt(plaintext, key)`; the fresh random IV is an
explicit input. -/
def encrypt {α : Type} (plaintext : Plain α) (key : DerivedKey) (iv : Bytes) : EncResult α :=
  ⟨iv, ⟨key, iv, plaintext⟩⟩

/-- `CryptoManager.decrypt(ciphertext, iv, key)`: GCM authentication
succeeds exactly when the supplied key and IV match the ones the blob was
produced with; any failure is wrapped into the single merged error. -/
def decrypt {α : Type} (ciphertext : CtBlob α) (iv : Bytes) (key : DerivedKey) :
    Except Err (Plain α) :=
  if ciphertext.key = key ∧ ciphertext.iv = iv then .ok ciphertext.plain
  else .error .decryptionFailed

/-- The `encryption` block of a persisted vault record. -/
structure Encryption where
  algorithm : String
  kdf : String
  iterations : Nat
  salt : Bytes
deriving DecidableEq

/-- A persisted vault record (`createEncryptedVault`'s return shape). -/
structure Vault (α : Type) where
  version : String
  format : String
  encryption : Encryption
  iv : Bytes
  data : CtBlob α
  created : Nat
  modified : Nat
deriving DecidableEq

/-- `CryptoManager.createEncryptedVault(password, data)`; the random salt
and IV and the current time are explicit inputs. -/
def createEncryptedVault {α : Type} (st : CryptoState) (password : String) (data : α)
    (salt iv : Bytes) (now : Nat) : Vault α :=
  let key := deriveKey st password salt
  let encrypted := encrypt (jsonStringify data) key iv
  { version := "1.0"
    format := "pass-manager-vault"
    encryption :=
      { algorithm := "AES-256-GCM"
        kdf := "PBKDF2-SHA256"
        iterations := st.ITERATIONS
        salt := salt }
    iv := encrypted.iv
    data := encrypted.ciphertext
    created := now
    modified := now }

/-- `CryptoManager.decryptVault(password, vault)`.  The structural guard
(`!vault.encryption || !vault.iv || !vault.data`) is represented by the one
falsy case a typed record can exhibit, an empty IV string.  The temporary
reassignment of `this.ITERATIONS` (`vault.encryption.iterations || this.ITERATIONS`,
restored in `finally`) is threaded through the returned `CryptoState`. -/
def decryptVault {α : Type} (st : CryptoState) (password : String) (vault : Vault α) :
    Except Err α × CryptoState :=
  if vault.iv.isEmpty then (.error .invalidVaultFormat, st)
  else
    let iterations :=
      if vault.encryption.iterations = 0 then st.ITERATIONS else vault.encryption.iterations
    let originalIterations := st.ITERATIONS
    let st1 : CryptoState := { st with ITERATIONS := iterations }
    let body : Except Err α × CryptoState :=
      match decrypt vault.data vault.iv (deriveKey st1 password vault.encryption.salt) with
      | .error e => (.error e, st1)
      | .ok plain => (jsonParse plain, st1)
    (body.1, { body.2 with ITERATIONS := originalIterations })

/-- `CryptoManager.updateVault(password, existingVault, newData)`: reuses
the stored salt but derives the key with `this.ITERATIONS` (the engine's
current default), and spreads the existing record under fresh `iv`, `data`
and `modified` fields. -/
def updateVault {α : Type} (st : CryptoState) (password : String) (existingVault : Vault α)
    (newData : α) (iv : Bytes) (now : Nat) : Vault α :=
  let salt := existingVault.encryption.salt
  let key := deriveKey st password salt
  let encrypted := encrypt (jsonStringify newData) key iv
  { existingVault with iv := encrypted.iv, data := encrypted.ciphertext, modified := now }

/-! ## Password generation (`CryptoManager.generatePassword`) -/

/-- `charSets.uppercase`. -/
def UPPERCASE_CHARS : List Char := "ABCDEFGHIJKLMNOPQRSTUVWXYZ".toList

/-- `charSets.lowercase`. -/
def LOWERCASE_CHARS : List Char := "abcdefghijklmnopqrstuvwxyz".toList

/-- `charSets.numbers`. -/
def NUMBER_CHARS : List Char := "0123456789".toList

/-- `charSets.symbols`. -/
def SYMBOL_CHARS : List Char := "!@#$%^&*()_+-=[]\x7b\x7d|;:,.<>?".toList

/-- `CryptoManager.getRandomChar(str)` with its one consumed random byte
made explicit: `str[randomByte % str.length]`. -/
def getRandomChar (randomByte : Nat) (s : List Char) : Char :=
  s.getD (randomByte % s.length) ' '

/-- Options object of `generatePassword` with the source's defaults. -/
structure GenOptions where
  length : Nat := 16
  uppercase : Bool := true
  lowercase : Bool := true
  numbers : Bool := true
  symbols : Bool := true
deriving DecidableEq

/-- Array destructuring swap `[a[i], a[j]] = [a[j], a[i]]`. -/
def listSwap (a : List Char) (i j : Nat) : List Char :=
  (a.set i (a.getD j ' ')).set j (a.getD i ' ')

/-- The forced-placement loop: for `i < min(requiredChars.length, length)`,
`passwordArray[randomValues[i] % length] = requiredChars[i]` (later forced
characters may overwrite earlier ones when positions collide). -/
def forcePlaceRequired (arr req : List Char) (randomValues : List Nat) (len : Nat) :
    List Char :=
  (List.range (min req.length len)).foldl
    (fun a i => a.set ((randomValues.getD i 0) % len) (req.getD i ' ')) arr

/-- The Fisher-Yates loop reusing `randomValues`: for `i` from
`length - 1` down to `1`, swap positions `i` and `randomValues[i] % (i+1)`. -/
def shufflePositions (arr : List Char) (randomValues : List Nat) : List Char :=
  ((List.range arr.length).drop 1).reverse.foldl
    (fun a i => listSwap a i ((randomValues.getD i 0) % (i + 1))) arr

/-- `CryptoManager.generatePassword(options)`.  The secure random source is
the explicit byte stream `rng`, consumed in source order: one byte per
enabled character class (the `getRandomChar` calls), then `options.length`
bytes (`generateRandomBytes(length)`). -/
def generatePassword (rng : Nat → Nat) (o : GenOptions) : List Char :=
  let classes : List (List Char) :=
    (if o.uppercase then [UPPERCASE_CHARS] else []) ++
    (if o.lowercase then [LOWERCASE_CHARS] else []) ++
    (if o.numbers then [NUMBER_CHARS] else []) ++
    (if o.symbols then [SYMBOL_CHARS] else [])
  let requiredChars : List Char :=
    (List.range classes.length).map (fun i => getRandomChar (rng i) (classes.getD i []))
  let chars0 : List Char := classes.foldl (fun acc c => acc ++ c) []
  let chars := if chars0.isEmpty then LOWERCASE_CHARS else chars0
  let randomValues : List Nat := (List.range o.length).map (fun i => rng (classes.length + i))
  let passwordArray : List Char := randomValues.map (fun v => chars.getD (v % chars.length) ' ')
  let placed := forcePlaceRequired passwordArray requiredChars randomValues o.length
  shufflePositions placed randomValues

/-! ## Vault session manager (`VaultManager`, src/pass-manager/vault.js) -/

/-- The decrypted vault payload `{entries, createdAt, modifiedAt?}`
(`createVault` writes no `modifiedAt`; `saveEntries` writes one). -/
structure VPayload where
  entries : List Obj
  createdAt : Nat
  modifiedAt : Option Nat
deriving DecidableEq

/-- The session fields of `VaultManager` the claims are about, plus the
`localStorage` slot under `STORAGE_KEY` (modelled as the parsed `vault`
field of the stored JSON when present).  Auto-lock timers and activity
timestamps are out of scope of the claims and omitted. -/
structure VMState where
  vault : Option (Vault VPayload)
  entries : List Obj
  isUnlocked : Bool
  masterPassword : Option String
  storage : Option (Vault VPayload)
deriving DecidableEq

/-- JS falsiness of `this.masterPassword` (null or empty string). -/
def strFalsy : Option String → Bool
  | none => true
  | some s => decide (s = "")

/-- `VaultManager.loadVaultFromStorage` (sets `this.vault` when the stored
record exists, otherwise leaves state unchanged). -/
def loadVaultFromStorage (st : VMState) : VMState :=
  match st.storage with
  | some v => { st with vault := some v }
  | none => st

/-- `VaultManager.saveVaultToStorage`; whether the `localStorage.setItem`
write succeeds is the environment input `persistOk`. -/
def saveVaultToStorage (persistOk : Bool) (st : VMState) : Except Err Unit × VMState :=
  match st.vault with
  | some v =>
      if persistOk then (.ok (), { st with storage := some v })
      else (.error .saveFailed, st)
  | none => (.ok (), st)

/-- `VaultManager.saveEntries`: guard on `!this.isUnlocked || !this.masterPassword`,
then re-encrypt the whole entry list via `updateVault`, assign `this.vault`,
and only then attempt the storage write. -/
def saveEntries (cst : CryptoState) (iv : Bytes) (now : Nat) (persistOk : Bool)
    (st : VMState) : Except Err Unit × VMState :=
  if st.isUnlocked = false ∨ strFalsy st.masterPassword then (.error .vaultLocked, st)
  else
    match st.vault, st.masterPassword with
    | some v, some pw =>
        let data : VPayload := ⟨st.entries, v.created, some now⟩
        let newVault := updateVault cst pw v data iv now
        saveVaultToStorage persistOk { st with vault := some newVault }
    | _, _ => (.error .jsTypeError, st)

/-- `e.id === id` (the predicate of `findIndex`/`find`). -/
def idEq (e : Obj) (id : String) : Bool :=
  decide (getField e "id" = some (JVal.str id))

/-- `Array.prototype.findIndex`. -/
def findIndex (p : Obj → Bool) : List Obj → Option Nat
  | [] => none
  | e :: rest => if p e then some 0 else (findIndex p rest).map (· + 1)

/-- `VaultManager.addEntry(entry)`: locked guard, build
`{id: uuid, ...entry, createdAt, modifiedAt}`, push, persist, return the
new entry.  The generated UUID and the clock are explicit inputs. -/
def addEntry (cst : CryptoState) (uuid : String) (iv : Bytes) (now : Nat) (persistOk : Bool)
    (st : VMState) (entry : Obj) : Except Err Obj × VMState :=
  if st.isUnlocked = false then (.error .vaultLocked, st)
  else
    let newEntry :=
      putField (putField (spread [("id", JVal.str uuid)] entry) "createdAt" (JVal.num now))
        "modifiedAt" (JVal.num now)
    let st1 := { st with entries := st.entries ++ [newEntry] }
    match saveEntries cst iv now persistOk st1 with
    | (.ok _, st2) => (.ok newEntry, st2)
    | (.error e, st2) => (.error e, st2)

/-- `VaultManager.updateEntry(id, updates)`: locked guard, `findIndex`,
merge `{...this.entries[index], ...updates, modifiedAt: now}` in place,
persist, return `this.entries[index]`. -/
def updateEntry (cst : CryptoState) (iv : Bytes) (now : Nat) (persistOk : Bool)
    (st : VMState) (id : String) (updates : Obj) : Except Err Obj × VMState :=
  if st.isUnlocked = false then (.error .vaultLocked, st)
  else
    match findIndex (fun e => idEq e id) st.entries with
    | none => (.error .entryNotFound, st)
    | some index =>
        let updated :=
          putField (spread (st.entries.getD index []) updates) "modifiedAt" (JVal.num now)
        let st1 := { st with entries := st.entries.set index updated }
        match saveEntries cst iv now persistOk st1 with
        | (.ok _, st2) => (.ok (st2.entries.getD index []), st2)
        | (.error e, st2) => (.error e, st2)

/-- `VaultManager.deleteEntry(id)`: locked guard, `findIndex`,
`splice(index, 1)`, persist. -/
def deleteEntry (cst : CryptoState) (iv : Bytes) (now : Nat) (persistOk : Bool)
    (st : VMState) (id : String) : Except Err Unit × VMState :=
  if st.isUnlocked = false then (.error .vaultLocked, st)
  else
    match findIndex (fun e => idEq e id) st.entries with
    | none => (.error .entryNotFound, st)
    | some index =>
        let st1 := { st with entries := st.entries.eraseIdx index }
        saveEntries cst iv now persistOk st1

/-- `VaultManager.getEntry(id)` (`find` over the in-memory entries; the JS
`null` result is `none`). -/
def getEntry (st : VMState) (id : String) : Option Obj :=
  st.entries.find? (fun e => idEq e id)

/-- `VaultManager.getAllEntries` (a copy of the in-memory list). -/
def getAllEntries (st : VMState) : List Obj :=
  st.entries

/-- `VaultManager.getEntriesByCategory(category)`.  The method body contains
no assignment, so the returned state is the input state; returning it
explicitly lets the read-only frame property be stated. -/
def getEntriesByCategory (st : VMState) (category : String) : List Obj × VMState :=
  if category = "all" then (getAllEntries st, st)
  else if category = "favorites" then
    (st.entries.filter (fun e => truthy (getField e "favorite")), st)
  else
    (st.entries.filter (fun e => decide (getField e "type" = some (JVal.str category))), st)

/-- `VaultManager.unlock(password)`: lazily load the stored record, throw
`'No vault found'` when there is none, otherwise attempt `decryptVault`
and wrap any of its failures as `'Invalid master password'`. -/
def unlock (cst : CryptoState) (st : VMState) (password : String) :
    Except Err Bool × VMState :=
  let st0 := if st.vault.isNone then loadVaultFromStorage st else st
  match st0.vault with
  | none => (.error .noVaultFound, st0)
  | some v =>
      match (decryptVault cst password v).1 with
      | .ok data =>
          (.ok true,
            { st0 with entries := data.entries, masterPassword := some password, isUnlocked := true })
      | .error _ => (.error .invalidMasterPassword, st0)

/-! ## Concrete sample data used in counterexamples and witnesses -/

/-- A record created under a legacy engine configuration whose stored
iteration count is 100000 (the situation of an imported older vault file). -/
def legacyVault : Vault Nat := createEncryptedVault ⟨100000⟩ "pw" 7 [1] [2] 0

/-- A record whose ciphertext authenticates under password `"pw"` but
decrypts to a string that is not a payload serialization. -/
def rawPlaintextVault : Vault Nat :=
  { version := "1.0"
    format := "pass-manager-vault"
    encryption :=
      { algorithm := "AES-256-GCM"
        kdf := "PBKDF2-SHA256"
        iterations := 600000
        salt := [1] }
    iv := [2]
    data := ⟨deriveKey defaultCryptoState "pw" [1], [2], .raw "not-a-payload"⟩
    created := 0
    modified := 0 }

/-- A freshly created record holding an empty payload. -/
def sampleVault : Vault VPayload :=
  createEncryptedVault defaultCryptoState "pw" ⟨[], 0, none⟩ [1] [2] 0

/-- One stored entry with id `"e1"`. -/
def sampleEntry : Obj :=
  [("id", JVal.str "e1"), ("title", JVal.str "old"), ("modifiedAt", JVal.num 0)]

/-- An unlocked session holding `sampleEntry`. -/
def sampleUnlocked : VMState :=
  ⟨some sampleVault, [sampleEntry], true, some "pw", some sampleVault⟩

/-- A freshly constructed session: Locked, nothing in storage. -/
def sampleFresh : VMState := ⟨none, [], false, none, none⟩

/-! ## Helper lemmas about the object model and list operations -/

theorem getField_eq_none_iff (o : Obj) (k : String) :
    getField o k = none ↔ ∀ kv ∈ o, kv.1 ≠ k := by
  induction o with
  | nil => simp [getField]
  | cons hd tl ih =>
    rcases hd with ⟨k', v'⟩
    by_cases h : k' = k
    · subst h
      simp [getField]
    · simp [getField, h, ih]

theorem getField_putField_self (o : Obj) (k : String) (v : JVal) :
    getField (putField o k v) k = some v := by
  induction o with
  | nil => simp [putField, getField]
  | cons hd tl ih =>
    rcases hd with ⟨k', v'⟩
    by_cases h : k' = k
    · simp [putField, getField, h]
    · simp [putField, getField, h, ih]

theorem getField_putField_other (o : Obj) (k k2 : String) (v : JVal) (h : k2 ≠ k) :
    getField (putField o k v) k2 = getField o k2 := by
  induction o with
  | nil => simp [putField, getField, Ne.symm h]
  | cons hd tl ih =>
    rcases hd with ⟨k', v'⟩
    by_cases hk : k' = k
    · subst hk
      simp [putField, getField, Ne.symm h]
    · simp [putField, getField, hk, ih]

theorem putField_append (o : Obj) (k : String) (v : JVal) (h : getField o k = none) :
    putField o k v = o ++ [(k, v)] := by
  induction o with
  | nil => simp [putField]
  | cons hd tl ih =>
    rcases hd with ⟨k', v'⟩
    by_cases hk : k' = k
    · subst hk
      simp [getField] at h
    · simp [getField, hk] at h
      simp [putField, hk, ih h]

theorem getField_append_none (a b : Obj) (k : String) (h : getField a k = none) :
    getField (a ++ b) k = getField b k := by
  induction a with
  | nil => simp
  | cons hd tl ih =>
    rcases hd with ⟨k', v'⟩
    by_cases hk : k' = k
    · subst hk
      simp [getField] at h
    · simp [getField, hk] at h ⊢
      exact ih h

theorem getField_append_some (a b : Obj) (k : String) (v : JVal) (h : getField a k = some v) :
    getField (a ++ b) k = some v := by
  induction a with
  | nil => simp [getField] at h
  | cons hd tl ih =>
    rcases hd with ⟨k', v'⟩
    by_cases hk : k' = k
    · subst hk
      simp [getField] at h ⊢
      exact h
    · simp [getField, hk] at h ⊢
      exact ih h

theorem spread_cons (a : Obj) (k : String) (v : JVal) (b : Obj) :
    spread a ((k, v) :: b) = spread (putField a k v) b := rfl

theorem getField_spread_none (a b : Obj) (k : String) (h : getField b k = none) :
    getField (spread a b) k = getField a k := by
  induction b generalizing a with
  | nil => rfl
  | cons hd tl ih =>
    rcases hd with ⟨k', v'⟩
    by_cases hk : k' = k
    · subst hk
      simp [getField] at h
    · simp [getField, hk] at h
      rw [spread_cons, ih _ h, getField_putField_other _ _ _ _ (fun hh => hk hh.symm)]

theorem getField_spread_some (a b : Obj) (k : String) (v : JVal)
    (hnd : (b.map Prod.fst).Nodup) (h : getField b k = some v) :
    getField (spread a b) k = some v := by
  induction b generalizing a with
  | nil => simp [getField] at h
  | cons hd tl ih =>
    rcases hd with ⟨k', v'⟩
    simp at hnd
    by_cases hk : k' = k
    · subst hk
      simp [getField] at h
      subst h
      have htl : getField tl k' = none := by
        rw [getField_eq_none_iff]
        intro kv hkv hfst
        exact hnd.1 kv.2 (by rw [← hfst]; exact hkv)
      rw [spread_cons, getField_spread_none _ _ _ htl, getField_putField_self]
    · simp [getField, hk] at h
      rw [spread_cons]
      exact ih _ hnd.2 h

theorem spread_append (a b : Obj) (hdisj : ∀ kv ∈ b, getField a kv.1 = none)
    (hnd : (b.map Prod.fst).Nodup) : spread a b = a ++ b := by
  induction b generalizing a with
  | nil => simp [spread]
  | cons hd tl ih =>
    rcases hd with ⟨k', v'⟩
    simp at hnd
    rw [spread_cons, putField_append _ _ _ (hdisj (k', v') (by simp))]
    rw [ih (a ++ [(k', v')]) ?_ hnd.2]
    · simp
    · intro kv hkv
      rw [getField_append_none _ _ _ (hdisj kv (by simp [hkv]))]
      have hne : kv.1 ≠ k' := by
        intro hh
        exact hnd.1 kv.2 (by rw [← hh]; exact hkv)
      simp [getField, Ne.symm hne]

theorem findIndex_eq_none_iff (p : Obj → Bool) (l : List Obj) :
    findIndex p l = none ↔ ∀ e ∈ l, p e = false := by
  induction l with
  | nil => simp [findIndex]
  | cons hd tl ih =>
    by_cases h : p hd
    · simp [findIndex, h]
    · simp [findIndex, h, ih]

theorem findIndex_lt_length (p : Obj → Bool) (l : List Obj) (i : Nat)
    (h : findIndex p l = some i) : i < l.length := by
  induction l generalizing i with
  | nil => simp [findIndex] at h
  | cons hd tl ih =>
    by_cases hp : p hd
    · simp [findIndex, hp] at h
      subst h
      simp
    · simp [findIndex, hp] at h
      obtain ⟨j, hj, rfl⟩ := h
      have := ih j hj
      simp
      omega

theorem find?_append_of_all_false (l1 l2 : List Obj) (p : Obj → Bool)
    (h : ∀ e ∈ l1, p e = false) : (l1 ++ l2).find? p = l2.find? p := by
  induction l1 with
  | nil => rfl
  | cons hd tl ih =>
    have hhd : p hd = false := h hd (by simp)
    rw [List.cons_append, List.find?_cons_of_neg _ (by simp [hhd])]
    exact ih (fun e he => h e (by simp [he]))

theorem find?_eraseIdx_of_unique (p : Obj → Bool) (l : List Obj) (i : Nat)
    (hidx : findIndex p l = some i) (hu : (l.filter p).length ≤ 1) :
    (l.eraseIdx i).find? p = none := by
  induction l generalizing i with
  | nil => simp [findIndex] at hidx
  | cons hd tl ih =>
    by_cases hp : p hd
    · simp [findIndex, hp] at hidx
      subst hidx
      have h0 : (hd :: tl).eraseIdx 0 = tl := rfl
      rw [h0, List.find?_eq_none]
      intro x hx hpx
      have hnil : tl.filter p = [] := by
        simpa [List.filter_cons, hp] using hu
      have hxmem : x ∈ tl.filter p := List.mem_filter.mpr ⟨hx, hpx⟩
      rw [hnil] at hxmem
      simp at hxmem
    · simp [findIndex, hp] at hidx
      obtain ⟨j, hj, rfl⟩ := hidx
      have h1 : (hd :: tl).eraseIdx (j + 1) = hd :: tl.eraseIdx j := rfl
      rw [h1, List.find?_cons_of_neg _ (by simp [hp])]
      exact ih j hj (by simpa [List.filter_cons, hp] using hu)

theorem getD_set_self (l : List Obj) (i : Nat) (x : Obj) (h : i < l.length) :
    (l.set i x).getD i [] = x := by
  induction l generalizing i with
  | nil => simp at h
  | cons hd tl ih =>
    cases i with
    | zero => simp [List.set, List.getD]
    | succ j =>
      simp [List.set, List.getD] at ih ⊢
      exact ih j (by simpa using h)

/-- Successful persist path of `saveEntries`: the re-encrypted record is
assigned to `this.vault` and written to storage; the entry list is
untouched. -/
theorem saveEntries_ok (cst : CryptoState) (iv : Bytes) (now : Nat) (st : VMState)
    (v : Vault VPayload) (pw : String)
    (hU : st.isUnlocked = true) (hV : st.vault = some v) (hP : st.masterPassword = some pw)
    (hpw : pw ≠ "") :
    saveEntries cst iv now true st =
      (.ok (),
        { st with
            vault := some (updateVault cst pw v ⟨st.entries, v.created, some now⟩ iv now)
            storage := some (updateVault cst pw v ⟨st.entries, v.created, some now⟩ iv now) }) := by
  simp [saveEntries, hU, hV, hP, strFalsy, hpw, saveVaultToStorage]

/-- Failed persist path of `saveEntries`: the error propagates, the
re-encrypted record is already assigned to `this.vault`, storage and the
entry list are untouched. -/
theorem saveEntries_fail (cst : CryptoState) (iv : Bytes) (now : Nat) (st : VMState)
    (v : Vault VPayload) (pw : String)
    (hU : st.isUnlocked = true) (hV : st.vault = some v) (hP : st.masterPassword = some pw)
    (hpw : pw ≠ "") :
    saveEntries cst iv now false st =
      (.error .saveFailed,
        { st with
            vault := some (updateVault cst pw v ⟨st.entries, v.created, some now⟩ iv now) }) := by
  simp [saveEntries, hU, hV, hP, strFalsy, hpw, saveVaultToStorage]

/-- GCM authentication fails whenever the supplied key or IV differs from
the ones the ciphertext was produced with. -/
theorem decrypt_mismatch {α : Type} (ct : CtBlob α) (iv : Bytes) (key : DerivedKey)
    (h : ct.key ≠ key ∨ ct.iv ≠ iv) : decrypt ct iv key = .error .decryptionFailed := by
  unfold decrypt
  rw [if_neg]
  rintro ⟨h1, h2⟩
  rcases h with h | h
  · exact h h1
  · exact h h2

/-! ## Claim theorems -/

/-- **C1** For every payload, password, salt, fresh (nonempty) IV and
creation time, decrypting the record produced by creating an encrypted
vault with the same password yields the payload unchanged:
`decryptVault(Pw, createEncryptedVault(Pw, P)) = ok P`. -/
theorem decryptVault_createEncryptedVault_roundTrip {α : Type} (st : CryptoState)
    (pw : String) (data : α) (salt iv : Bytes) (now : Nat) (hiv : iv ≠ []) :
    (decryptVault st pw (createEncryptedVault st pw data salt iv now)).1 = .ok data := by
  have h1 : iv.isEmpty = false := by
    cases iv
    · exact absurd rfl hiv
    · rfl
  simp [decryptVault, createEncryptedVault, encrypt, jsonStringify, deriveKey, decrypt,
    jsonParse, h1, ite_self]

/-- Witness for the round-trip theorem at concrete inputs. -/
theorem decryptVault_createEncryptedVault_roundTrip_witness :
    ([2] : Bytes) ≠ [] ∧
      (decryptVault defaultCryptoState "pw"
          (createEncryptedVault defaultCryptoState "pw" (3 : Nat) [1] [2] 0)).1 = .ok 3 :=
  ⟨by decide,
    decryptVault_createEncryptedVault_roundTrip defaultCryptoState "pw" 3 [1] [2] 0 (by decide)⟩

/-- **C9** `decryptVault` restores the engine's configured default iteration
count before returning on every path (format-guard failure, authentication
failure, parse failure, success): the returned engine state equals the
input state, so subsequently created vaults use the pre-call KDF
parameters. -/
theorem decryptVault_restores_ITERATIONS {α : Type} (st : CryptoState) (pw : String)
    (v : Vault α) : (decryptVault st pw v).2 = st := by
  unfold decryptVault
  split <;> rfl

/-- **C5** In a Locked session every mutating call (`addEntry`,
`updateEntry`, `deleteEntry`) fails with `VaultLocked` and returns the
session state unchanged — in-memory entry list and persisted record
included. -/
theorem locked_mutating_calls_fail (cst : CryptoState) (uuid : String) (iv : Bytes)
    (now : Nat) (persistOk : Bool) (st : VMState) (fields : Obj) (id : String)
    (updates : Obj) (h : st.isUnlocked = false) :
    addEntry cst uuid iv now persistOk st fields = (.error .vaultLocked, st)
    ∧ updateEntry cst iv now persistOk st id updates = (.error .vaultLocked, st)
    ∧ deleteEntry cst iv now persistOk st id = (.error .vaultLocked, st) := by
  refine ⟨?_, ?_, ?_⟩ <;> simp [addEntry, updateEntry, deleteEntry, h]

/-- Witness for the locked-guard theorem on a freshly constructed session. -/
theorem locked_mutating_calls_fail_witness :
    sampleFresh.isUnlocked = false ∧
      addEntry defaultCryptoState "u1" [9] 5 true sampleFresh [] =
        (.error .vaultLocked, sampleFresh) :=
  ⟨rfl,
    (locked_mutating_calls_fail defaultCryptoState "u1" [9] 5 true sampleFresh [] "x" []
        rfl).1⟩

/-- **C10** Calling `unlock` when no vault record exists (neither cached nor
in storage) fails with the distinct `'No vault found'` error — not the
merged invalid-credentials error — leaves the session state unchanged
(still Locked, no entries materialized), and the result does not depend on
the supplied password, so no decryption is attempted. -/
theorem unlock_without_vault_fails_distinct (cst : CryptoState) (st : VMState)
    (pw : String) (h1 : st.vault = none) (h2 : st.storage = none) :
    unlock cst st pw = (.error .noVaultFound, st)
    ∧ (∀ pw2, unlock cst st pw2 = unlock cst st pw)
    ∧ Err.noVaultFound ≠ Err.invalidMasterPassword := by
  have key : ∀ p, unlock cst st p = (.error .noVaultFound, st) := by
    intro p
    simp [unlock, loadVaultFromStorage, h1, h2]
  exact ⟨key pw, fun pw2 => by rw [key pw2, key pw], by decide⟩

/-- Witness for the no-vault unlock theorem on a fresh session. -/
theorem unlock_without_vault_fails_distinct_witness :
    sampleFresh.vault = none ∧ sampleFresh.storage = none ∧
      unlock defaultCryptoState sampleFresh "pw" = (.error .noVaultFound, sampleFresh) :=
  ⟨rfl, rfl,
    (unlock_without_vault_fails_distinct defaultCryptoState sampleFresh "pw" rfl rfl).1⟩

/-- **C2** (code bug) `updateVault` derives the update key with the engine's
current default iteration count instead of the record's stored count:
updating a record whose stored `iterations` is 100000 under a
600000-iteration engine returns a record that still advertises 100000
iterations in its metadata but is encrypted under a 600000-iteration key,
so the updated record no longer decrypts with the very same password. -/
theorem updateVault_ignores_stored_iterations :
    legacyVault.encryption.iterations = 100000
    ∧ (decryptVault defaultCryptoState "pw" legacyVault).1 = .ok 7
    ∧ (updateVault defaultCryptoState "pw" legacyVault 8 [3] 1).encryption.iterations = 100000
    ∧ (updateVault defaultCryptoState "pw" legacyVault 8 [3] 1).data.key.iterations = 600000
    ∧ (decryptVault defaultCryptoState "pw"
          (updateVault defaultCryptoState "pw" legacyVault 8 [3] 1)).1
        = (.error .decryptionFailed : Except Err Nat) :=
  ⟨rfl, by decide, rfl, rfl, by decide⟩

/-- **C7** (code bug) With all four character classes selected and requested
length 4 (equal to the number of selected classes), the all-zero random
byte stream makes every forced placement land on position 0, so later
forced characters overwrite earlier ones: the generated password is
`"AAA!"`, which contains no lowercase letter and no digit although both
classes were selected, while still having the requested length. -/
theorem generatePassword_misses_selected_class :
    GenOptions.lowercase { length := 4 } = true
    ∧ GenOptions.numbers { length := 4 } = true
    ∧ generatePassword (fun _ => 0) { length := 4 } = "AAA!".toList
    ∧ (generatePassword (fun _ => 0) { length := 4 }).length = 4
    ∧ (generatePassword (fun _ => 0) { length := 4 }).any
        (fun c => LOWERCASE_CHARS.contains c) = false
    ∧ (generatePassword (fun _ => 0) { length := 4 }).any
        (fun c => NUMBER_CHARS.contains c) = false :=
  ⟨rfl, rfl, by decide, by decide, by decide, by decide⟩

/-- **C3** (counterexample) In an unlocked session whose storage write
fails, every mutating call propagates the persistence error yet leaves the
mutation in the in-memory entry list, contradicting the claim that the
list equals its pre-call state after a failed persist. -/
theorem failed_persist_mutation_survives :
    ((addEntry defaultCryptoState "u1" [9] 5 false sampleUnlocked
          [("title", JVal.str "t")]).1 = .error .saveFailed
      ∧ (addEntry defaultCryptoState "u1" [9] 5 false sampleUnlocked
          [("title", JVal.str "t")]).2.entries ≠ sampleUnlocked.entries)
    ∧ ((updateEntry defaultCryptoState [9] 5 false sampleUnlocked "e1"
          [("title", JVal.str "n")]).1 = .error .saveFailed
      ∧ (updateEntry defaultCryptoState [9] 5 false sampleUnlocked "e1"
          [("title", JVal.str "n")]).2.entries ≠ sampleUnlocked.entries)
    ∧ ((deleteEntry defaultCryptoState [9] 5 false sampleUnlocked "e1").1 = .error .saveFailed
      ∧ (deleteEntry defaultCryptoState [9] 5 false sampleUnlocked "e1").2.entries
          ≠ sampleUnlocked.entries) :=
  ⟨⟨by decide, by decide⟩, ⟨by decide, by decide⟩, ⟨by decide, by decide⟩⟩

/-- **C3** (amended) When the persistence write fails, a mutating call in an
unlocked session propagates the storage error, but the in-memory entry
list keeps the already-applied mutation — the mutation is committed before
the persist and is not reverted; only the persisted record is left
unchanged. -/
theorem failed_persist_keeps_mutation (cst : CryptoState) (uuid id : String) (iv : Bytes)
    (now : Nat) (st : VMState) (v : Vault VPayload) (pw : String) (fields updates : Obj)
    (i : Nat) (hU : st.isUnlocked = true) (hV : st.vault = some v)
    (hP : st.masterPassword = some pw) (hpw : pw ≠ "")
    (hidx : findIndex (fun e => idEq e id) st.entries = some i) :
    ((addEntry cst uuid iv now false st fields).1 = .error .saveFailed
      ∧ (addEntry cst uuid iv now false st fields).2.entries
          = st.entries ++
            [putField (putField (spread [("id", JVal.str uuid)] fields) "createdAt"
                (JVal.num now)) "modifiedAt" (JVal.num now)]
      ∧ (addEntry cst uuid iv now false st fields).2.storage = st.storage)
    ∧ ((updateEntry cst iv now false st id updates).1 = .error .saveFailed
      ∧ (updateEntry cst iv now false st id updates).2.entries
          = st.entries.set i
              (putField (spread (st.entries.getD i []) updates) "modifiedAt" (JVal.num now))
      ∧ (updateEntry cst iv now false st id updates).2.storage = st.storage)
    ∧ ((deleteEntry cst iv now false st id).1 = .error .saveFailed
      ∧ (deleteEntry cst iv now false st id).2.entries = st.entries.eraseIdx i
      ∧ (deleteEntry cst iv now false st id).2.storage = st.storage) := by
  refine ⟨?_, ?_, ?_⟩
  · have hs := saveEntries_fail cst iv now { st with entries := st.entries ++ [putField (putField (spread [("id", JVal.str uuid)] fields) "createdAt" (JVal.num now)) "modifiedAt" (JVal.num now)] } v pw (by simpa using hU) (by simpa using hV) (by simpa using hP) hpw
    simp only [addEntry]
    rw [if_neg (by simp [hU])]
    rw [hs]
    exact ⟨rfl, rfl, rfl⟩
  · have hs := saveEntries_fail cst iv now { st with entries := st.entries.set i (putField (spread (st.entries.getD i []) updates) "modifiedAt" (JVal.num now)) } v pw (by simpa using hU) (by simpa using hV) (by simpa using hP) hpw
    simp only [updateEntry]
    rw [if_neg (by simp [hU])]
    rw [hidx]
    dsimp only
    rw [hs]
    exact ⟨rfl, rfl, rfl⟩
  · have hs := saveEntries_fail cst iv now { st with entries := st.entries.eraseIdx i } v pw (by simpa using hU) (by simpa using hV) (by simpa using hP) hpw
    simp only [deleteEntry]
    rw [if_neg (by simp [hU])]
    rw [hidx]
    dsimp only
    rw [hs]
    exact ⟨rfl, rfl, rfl⟩

/-- Witness for the amended failed-persist theorem at concrete inputs. -/
theorem failed_persist_keeps_mutation_witness :
    sampleUnlocked.isUnlocked = true ∧
      (deleteEntry defaultCryptoState [9] 5 false sampleUnlocked "e1").2.entries
        = sampleUnlocked.entries.eraseIdx 0 :=
  ⟨rfl,
    (failed_persist_keeps_mutation defaultCryptoState "u1" "e1" [9] 5 sampleUnlocked
        sampleVault "pw" [] [] 0 rfl rfl rfl (by decide) (by decide)).2.2.2.1⟩

/-- **C4** (counterexample) A record whose ciphertext authenticates under
the supplied password but decrypts to a non-payload string makes
`decryptVault` fail with the raw parse error, not the merged
invalid-credentials-or-corrupt error the claim requires for parse
failures. -/
theorem decryptVault_parse_failure_not_merged :
    (decryptVault defaultCryptoState "pw" rawPlaintextVault).1
        = (.error .parseError : Except Err Nat)
    ∧ Err.parseError ≠ Err.decryptionFailed :=
  ⟨by decide, by decide⟩

/-- **C4** (amended) Opening a record with a password other than the one it
was created with fails with the single merged invalid-credentials-or-corrupt
error, and so does any authentication-tag failure (key or nonce mismatch)
on a structurally valid record; a failure to parse authentically decrypted
bytes, however, escapes as a distinct parse error (see the
counterexample). -/
theorem decryptVault_wrong_password_merged (α : Type) (st : CryptoState)
    (pw1 pw2 : String) (data : α) (salt iv : Bytes) (now : Nat) (v : Vault α)
    (hne : pw1 ≠ pw2) (hiv : iv ≠ []) (hiv2 : v.iv ≠ [])
    (hauth : v.data.key ≠
        deriveKey
          ⟨if v.encryption.iterations = 0 then st.ITERATIONS else v.encryption.iterations⟩
          pw2 v.encryption.salt
      ∨ v.data.iv ≠ v.iv) :
    (decryptVault st pw2 (createEncryptedVault st pw1 data salt iv now)).1
        = .error .decryptionFailed
    ∧ (decryptVault st pw2 v).1 = .error .decryptionFailed := by
  constructor
  · have h1 : iv.isEmpty = false := by
      cases iv
      · exact absurd rfl hiv
      · rfl
    have hd : decrypt (⟨⟨pw1, salt, st.ITERATIONS⟩, iv, Plain.ofJson data⟩ : CtBlob α) iv
        ⟨pw2, salt, st.ITERATIONS⟩ = .error .decryptionFailed := by
      refine decrypt_mismatch _ _ _ (Or.inl ?_)
      intro hcontra
      exact hne (congrArg DerivedKey.password hcontra)
    simp [decryptVault, createEncryptedVault, encrypt, jsonStringify, deriveKey, h1, hd]
  · have h2 : v.iv.isEmpty = false := by
      cases hv : v.iv
      · exact absurd hv hiv2
      · rfl
    have hd : decrypt v.data v.iv
        (⟨pw2, v.encryption.salt,
          if v.encryption.iterations = 0 then st.ITERATIONS else v.encryption.iterations⟩ :
          DerivedKey)
        = .error .decryptionFailed := decrypt_mismatch _ _ _ (by simpa [deriveKey] using hauth)
    simp [decryptVault, deriveKey, h2, hd]

/-- Witness for the merged-error theorem: a wrong password on a fresh
record, and a key mismatch on the legacy record. -/
theorem decryptVault_wrong_password_merged_witness :
    ("a" : String) ≠ "b"
    ∧ (decryptVault defaultCryptoState "b"
          (createEncryptedVault defaultCryptoState "a" (0 : Nat) [1] [2] 0)).1
        = .error .decryptionFailed
    ∧ (decryptVault defaultCryptoState "b" legacyVault).1 = .error .decryptionFailed := by
  have h := decryptVault_wrong_password_merged Nat defaultCryptoState "a" "b" 0 [1] [2] 0
    legacyVault (by decide) (by decide) (by decide) (Or.inl (by decide))
  exact ⟨by decide, h.1, h.2⟩

/-- **C8** Category listing over any entry set whose entries carry a
boolean-or-absent `favorite` field: `"favorites"` returns exactly the
entries with `favorite = true`, `"all"` returns every entry, each type
category returns exactly the entries of that `type`, and no category read
changes the session state (entry list and persisted record included). -/
theorem getEntriesByCategory_filter_correct (st : VMState)
    (hwt : ∀ e ∈ st.entries,
      getField e "favorite" = none ∨ ∃ b, getField e "favorite" = some (JVal.bool b)) :
    getEntriesByCategory st "all" = (st.entries, st)
    ∧ (getEntriesByCategory st "favorites").1
        = st.entries.filter (fun e => decide (getField e "favorite" = some (JVal.bool true)))
    ∧ (getEntriesByCategory st "favorites").2 = st
    ∧ (∀ c, c = "login" ∨ c = "card" ∨ c = "note" →
        getEntriesByCategory st c
          = (st.entries.filter (fun e => decide (getField e "type" = some (JVal.str c))), st)) := by
  refine ⟨?_, ?_, ?_, ?_⟩
  · simp [getEntriesByCategory, getAllEntries]
  · have heq : getEntriesByCategory st "favorites"
        = (st.entries.filter (fun e => truthy (getField e "favorite")), st) := by
      simp [getEntriesByCategory]
    rw [heq]
    refine List.filter_congr ?_
    intro e he
    rcases hwt e he with hnone | ⟨b, hb⟩
    · simp [truthy, hnone]
    · cases b <;> simp [truthy, hb]
  · simp [getEntriesByCategory]
  · intro c hc
    rcases hc with rfl | rfl | rfl <;>
      · simp only [getEntriesByCategory]
        rw [if_neg (by decide), if_neg (by decide)]

/-- Witness for the category-listing theorem on a concrete session. -/
theorem getEntriesByCategory_filter_correct_witness :
    (∀ e ∈ sampleUnlocked.entries,
      getField e "favorite" = none ∨ ∃ b, getField e "favorite" = some (JVal.bool b))
    ∧ getEntriesByCategory sampleUnlocked "all" = (sampleUnlocked.entries, sampleUnlocked) := by
  have hwt : ∀ e ∈ sampleUnlocked.entries,
      getField e "favorite" = none ∨ ∃ b, getField e "favorite" = some (JVal.bool b) := by
    intro e he
    simp [sampleUnlocked, sampleEntry] at he
    subst he
    exact Or.inl (by decide)
  exact ⟨hwt, (getEntriesByCategory_filter_correct sampleUnlocked hwt).1⟩

/-- **C6** CRUD consistency in an unlocked session (with a persistable
storage): `addEntry` of payload fields (no reserved `id`/timestamp keys,
fresh generated id) followed by `getEntry` of that id returns exactly the
input fields plus the assigned id and `createdAt`/`modifiedAt` stamps;
`deleteEntry` of a (unique) id followed by `getEntry` returns none;
`updateEntry` of an absent id fails with `EntryNotFound`; and `updateEntry`
of a present id returns the merged entry that changes exactly the patched
fields plus `modifiedAt`, which is stamped to the call time and differs
from any strictly earlier previous stamp. -/
theorem crud_consistency
    (cst : CryptoState) (uuid id idMissing pw : String) (iv : Bytes) (now : Nat)
    (st : VMState) (v : Vault VPayload) (fields updates : Obj) (i : Nat)
    (hU : st.isUnlocked = true) (hV : st.vault = some v)
    (hP : st.masterPassword = some pw) (hpw : pw ≠ "")
    (hfid : getField fields "id" = none)
    (hfca : getField fields "createdAt" = none)
    (hfma : getField fields "modifiedAt" = none)
    (hfnd : (fields.map Prod.fst).Nodup)
    (hund : (updates.map Prod.fst).Nodup)
    (hfresh : ∀ e ∈ st.entries, idEq e uuid = false)
    (huniq : (st.entries.filter (fun e => idEq e id)).length ≤ 1)
    (hmiss : ∀ e ∈ st.entries, idEq e idMissing = false)
    (hidx : findIndex (fun e => idEq e id) st.entries = some i) :
    ((addEntry cst uuid iv now true st fields).1
        = .ok ((("id", JVal.str uuid) :: fields) ++
            [("createdAt", JVal.num now), ("modifiedAt", JVal.num now)])
      ∧ getEntry (addEntry cst uuid iv now true st fields).2 uuid
        = some ((("id", JVal.str uuid) :: fields) ++
            [("createdAt", JVal.num now), ("modifiedAt", JVal.num now)]))
    ∧ getEntry (deleteEntry cst iv now true st id).2 id = none
    ∧ updateEntry cst iv now true st idMissing updates = (.error .entryNotFound, st)
    ∧ (updateEntry cst iv now true st id updates).1
        = .ok (putField (spread (st.entries.getD i []) updates) "modifiedAt" (JVal.num now))
    ∧ getField (putField (spread (st.entries.getD i []) updates) "modifiedAt" (JVal.num now))
        "modifiedAt" = some (JVal.num now)
    ∧ (∀ k, k ≠ "modifiedAt" → getField updates k = none →
        getField (putField (spread (st.entries.getD i []) updates) "modifiedAt" (JVal.num now)) k
          = getField (st.entries.getD i []) k)
    ∧ (∀ k w, k ≠ "modifiedAt" → getField updates k = some w →
        getField (putField (spread (st.entries.getD i []) updates) "modifiedAt" (JVal.num now)) k
          = some w)
    ∧ (∀ t, getField (st.entries.getD i []) "modifiedAt" = some (JVal.num t) → t < now →
        getField (putField (spread (st.entries.getD i []) updates) "modifiedAt" (JVal.num now))
            "modifiedAt"
          ≠ getField (st.entries.getD i []) "modifiedAt") := by
  have hstep1 : spread [("id", JVal.str uuid)] fields = ("id", JVal.str uuid) :: fields := by
    have hdisj : ∀ kv ∈ fields, getField [("id", JVal.str uuid)] kv.1 = none := by
      intro kv hkv
      have hne : kv.1 ≠ "id" := (getField_eq_none_iff fields "id").mp hfid kv hkv
      simp [getField, Ne.symm hne]
    simpa using spread_append [("id", JVal.str uuid)] fields hdisj hfnd
  have h2 : getField (("id", JVal.str uuid) :: fields) "createdAt" = none := by
    simpa [getField] using hfca
  have hstep2 := putField_append (("id", JVal.str uuid) :: fields) "createdAt" (JVal.num now) h2
  have h3 : getField ((("id", JVal.str uuid) :: fields) ++ [("createdAt", JVal.num now)])
      "modifiedAt" = none := by
    rw [getField_append_none _ _ _ (by simpa [getField] using hfma)]
    simp [getField]
  have hstep3 := putField_append ((("id", JVal.str uuid) :: fields) ++
    [("createdAt", JVal.num now)]) "modifiedAt" (JVal.num now) h3
  have hnewEntry : putField (putField (spread [("id", JVal.str uuid)] fields) "createdAt"
        (JVal.num now)) "modifiedAt" (JVal.num now)
      = (("id", JVal.str uuid) :: fields) ++
          [("createdAt", JVal.num now), ("modifiedAt", JVal.num now)] := by
    rw [hstep1, hstep2, hstep3]
    simp
  have hAraw : (addEntry cst uuid iv now true st fields).1
        = .ok (putField (putField (spread [("id", JVal.str uuid)] fields) "createdAt"
            (JVal.num now)) "modifiedAt" (JVal.num now))
      ∧ (addEntry cst uuid iv now true st fields).2.entries
        = st.entries ++ [putField (putField (spread [("id", JVal.str uuid)] fields) "createdAt"
            (JVal.num now)) "modifiedAt" (JVal.num now)] := by
    have hs := saveEntries_ok cst iv now { st with entries := st.entries ++ [putField (putField (spread [("id", JVal.str uuid)] fields) "createdAt" (JVal.num now)) "modifiedAt" (JVal.num now)] } v pw (by simpa using hU) (by simpa using hV) (by simpa using hP) hpw
    simp only [addEntry]
    rw [if_neg (by simp [hU])]
    rw [hs]
    exact ⟨rfl, rfl⟩
  have hilt : i < st.entries.length := findIndex_lt_length _ _ _ hidx
  have hBdel : (deleteEntry cst iv now true st id).2.entries = st.entries.eraseIdx i := by
    have hs := saveEntries_ok cst iv now { st with entries := st.entries.eraseIdx i } v pw (by simpa using hU) (by simpa using hV) (by simpa using hP) hpw
    simp only [deleteEntry]
    rw [if_neg (by simp [hU])]
    rw [hidx]
    dsimp only
    rw [hs]
  have hDraw : (updateEntry cst iv now true st id updates).1
      = .ok (putField (spread (st.entries.getD i []) updates) "modifiedAt" (JVal.num now)) := by
    have hs := saveEntries_ok cst iv now { st with entries := st.entries.set i (putField (spread (st.entries.getD i []) updates) "modifiedAt" (JVal.num now)) } v pw (by simpa using hU) (by simpa using hV) (by simpa using hP) hpw
    simp only [updateEntry]
    rw [if_neg (by simp [hU])]
    rw [hidx]
    dsimp only
    rw [hs]
    exact congrArg Except.ok (getD_set_self _ _ _ hilt)
  refine ⟨⟨?_, ?_⟩, ?_, ?_, hDraw, getField_putField_self _ _ _, ?_, ?_, ?_⟩
  · rw [hAraw.1, hnewEntry]
  · unfold getEntry
    rw [hAraw.2, hnewEntry, find?_append_of_all_false _ _ _ hfresh]
    simp [List.find?, idEq, getField]
  · unfold getEntry
    rw [hBdel]
    exact find?_eraseIdx_of_unique _ _ _ hidx huniq
  · simp only [updateEntry]
    rw [if_neg (by simp [hU])]
    rw [(findIndex_eq_none_iff _ _).mpr hmiss]
  · intro k hk hnone
    rw [getField_putField_other _ _ _ _ hk, getField_spread_none _ _ _ hnone]
  · intro k w hk hsome
    rw [getField_putField_other _ _ _ _ hk]
    exact getField_spread_some _ _ _ _ hund hsome
  · intro t ht hlt
    rw [getField_putField_self, ht]
    intro hcontra
    simp at hcontra
    omega

/-- Witness for the CRUD consistency theorem at concrete inputs. -/
theorem crud_consistency_witness :
    getEntry (deleteEntry defaultCryptoState [9] 5 true sampleUnlocked "e1").2 "e1" = none
    ∧ updateEntry defaultCryptoState [9] 5 true sampleUnlocked "zz" [("title", JVal.str "n")]
        = (.error .entryNotFound, sampleUnlocked)
    ∧ getEntry (addEntry defaultCryptoState "u1" [9] 5 true sampleUnlocked
          [("title", JVal.str "t")]).2 "u1"
        = some [("id", JVal.str "u1"), ("title", JVal.str "t"), ("createdAt", JVal.num 5),
            ("modifiedAt", JVal.num 5)] := by
  have h := crud_consistency defaultCryptoState "u1" "e1" "zz" "pw" [9] 5 sampleUnlocked
    sampleVault [("title", JVal.str "t")] [("title", JVal.str "n")] 0 rfl rfl rfl (by decide)
    (by decide) (by decide) (by decide) (by decide) (by decide) (by decide) (by decide)
    (by decide) (by decide)
  exact ⟨h.2.1, h.2.2.1, by simpa using h.1.2⟩

end ToolHub
